import Mathlib

/-!
Verification of the portfolio ledger implemented in
`finance_mcp_server/database/models.py` and `finance_mcp_server/portfolio_server.py`.

The SQLite tables `transactions`, `positions`, `price_cache` and `realized_pnl`
are embedded as lists of records inside a `DBState`; the module-level Python
functions become state-passing Lean functions.  Monetary values (`REAL` columns)
are modelled as rationals, quantities (`INTEGER` columns) as `Int`, and
timestamps as natural numbers (the ISO `date`/`time` strings used by the code
compare lexicographically, which agrees with the numeric order used here).
The price-fetching backends (`_fetch_price_vnstock`, `_fetch_price_yfinance`)
are external collaborators and enter the model as function parameters
`String → Option ℚ`.
-/

namespace Portfolio

/-! ### String helpers

Python's `str.upper`, `str.strip` and string comparison are modelled on the
character list underlying a `String` (the built-in `String` operations do not
reduce in the kernel). -/

/-- ASCII uppercase of one character, as `str.upper` acts on the tickers used here. -/
def upperChar (c : Char) : Char := c.toUpper

/-- Whitespace recognised by `str.strip`. -/
def isSpaceChar (c : Char) : Bool := c = ' ' ∨ c = '\t' ∨ c = '\n' ∨ c = '\r'

/-- Drop leading whitespace characters. -/
def dropLeadingSpaces : List Char → List Char
  | [] => []
  | c :: cs => if isSpaceChar c then dropLeadingSpaces cs else c :: cs

/-- Strip whitespace from both ends, as `str.strip`. -/
def trimChars (cs : List Char) : List Char :=
  (dropLeadingSpaces ((dropLeadingSpaces cs.reverse).reverse))

/-- Model of `ticker.upper().strip()` (models.py line 396, 653). -/
def normTicker (s : String) : String := ⟨trimChars (s.data.map upperChar)⟩

/-- Model of `str.upper()` alone (used for `trans_type` and query tickers). -/
def upperStr (s : String) : String := ⟨s.data.map upperChar⟩

/-- Lexicographic comparison of character lists; agrees with SQLite's ordering
of `TEXT` values for the ASCII tickers stored here. -/
def lexLe : List Char → List Char → Bool
  | [], _ => true
  | _ :: _, [] => false
  | a :: as, b :: bs => if a < b then true else if a = b then lexLe as bs else false

/-- Lexicographic string order used for `ORDER BY ticker`. -/
def strLe (a b : String) : Bool := lexLe a.data b.data

/-! ### Data model: the four tables of `init_database` (models.py lines 55-137) -/

/-- One row of the `transactions` table. -/
structure Transaction where
  id : Nat
  ticker : String
  type : String
  quantity : Int
  price : ℚ
  date : Nat
  time : Nat
  market : String
  notes : String
deriving DecidableEq

/-- One row of the `positions` table. -/
structure Position where
  ticker : String
  quantity : Int
  avg_buy_price : ℚ
  market : String
  last_updated : Nat
deriving DecidableEq

/-- One row of the `realized_pnl` table. -/
structure RealizedPnL where
  id : Nat
  ticker : String
  quantity : Int
  buy_price : ℚ
  sell_price : ℚ
  pnl : ℚ
  pnl_percent : ℚ
  sell_date : Nat
  sell_time : Nat
deriving DecidableEq

/-- One row of the `price_cache` table. -/
structure PriceCacheEntry where
  ticker : String
  price : ℚ
  last_updated : Nat
deriving DecidableEq

/-- The whole database.  `next_tx_id` and `next_pnl_id` model the SQLite
`AUTOINCREMENT` sequences (which survive a `DELETE`). -/
structure DBState where
  transactions : List Transaction
  positions : List Position
  realized_pnl : List RealizedPnL
  price_cache : List PriceCacheEntry
  next_tx_id : Nat
  next_pnl_id : Nat
deriving DecidableEq

/-- The freshly initialised database. -/
def DBState.empty : DBState := ⟨[], [], [], [], 1, 1⟩

/-- Errors surfaced by `add_transaction` (Python raises `ValueError` /
`sqlite3.IntegrityError`, both caught by the `except` that rolls back). -/
inductive LedgerError where
  | checkViolation
  | positionNotFound (ticker : String)
  | insufficientQuantity (available requested : Int)
deriving DecidableEq

/-- The successful result of `add_transaction` (the Python result dict:
`transaction_id`, and for SELL also `realized_pnl` / `realized_pnl_percent`). -/
structure TxOk where
  transaction_id : Nat
  realized_pnl : Option ℚ
  realized_pnl_percent : Option ℚ
deriving DecidableEq

/-! ### Core database operations (models.py lines 202-430) -/

/-- The `SELECT ... FROM positions WHERE ticker = ?` lookup. -/
def find_position (ps : List Position) (ticker : String) : Option Position :=
  ps.find? (fun p => decide (p.ticker = ticker))

/-- Model of `_handle_buy` (models.py lines 202-261): create a position on
first buy, otherwise recompute the weighted average cost. -/
def handle_buy (ps : List Position) (ticker : String) (quantity : Int) (price : ℚ)
    (market : String) (now : Nat) : List Position :=
  match find_position ps ticker with
  | none => ps ++ [⟨ticker, quantity, price, market, now⟩]
  | some pos =>
    let new_qty := pos.quantity + quantity
    let new_avg_price :=
      ((pos.quantity : ℚ) * pos.avg_buy_price + (quantity : ℚ) * price) / (new_qty : ℚ)
    ps.map (fun p =>
      if p.ticker = ticker then
        { p with quantity := new_qty, avg_buy_price := new_avg_price, last_updated := now }
      else p)

/-- What a successful `_handle_sell` produces: the updated positions list, the
appended `realized_pnl` row and the returned pnl figures. -/
structure SellOutcome where
  positions : List Position
  pnl_record : RealizedPnL
  realized_pnl : ℚ
  realized_pnl_percent : ℚ
deriving DecidableEq

/-- Model of `_handle_sell` (models.py lines 263-351): check the position and
quantity, record realized P&L, then decrement or delete the position. -/
def handle_sell (ps : List Position) (ticker : String) (quantity : Int) (sell_price : ℚ)
    (date_n time_n : Nat) (pnl_id : Nat) (now : Nat) : Except LedgerError SellOutcome :=
  match find_position ps ticker with
  | none => .error (.positionNotFound ticker)
  | some pos =>
    if pos.quantity < quantity then
      .error (.insufficientQuantity pos.quantity quantity)
    else
      let pnl := (sell_price - pos.avg_buy_price) * (quantity : ℚ)
      let pnl_percent := (sell_price - pos.avg_buy_price) / pos.avg_buy_price * 100
      let new_qty := pos.quantity - quantity
      let new_ps :=
        if new_qty = 0 then
          ps.filter (fun p => decide (p.ticker ≠ ticker))
        else
          ps.map (fun p =>
            if p.ticker = ticker then { p with quantity := new_qty, last_updated := now } else p)
      .ok ⟨new_ps,
           ⟨pnl_id, ticker, quantity, pos.avg_buy_price, sell_price, pnl, pnl_percent,
            date_n, time_n⟩,
           pnl, pnl_percent⟩

/-- The SQLite `CHECK` constraints on the `transactions` insert
(models.py lines 67-80): positive quantity and price, a valid type and market. -/
def tx_check (trans_type : String) (quantity : Int) (price : ℚ) (market : String) : Prop :=
  0 < quantity ∧ 0 < price ∧ (trans_type = "BUY" ∨ trans_type = "SELL") ∧
    (market = "VN" ∨ market = "US")

instance (tt : String) (q : Int) (p : ℚ) (m : String) : Decidable (tx_check tt q p m) := by
  unfold tx_check
  infer_instance

/-- Model of `add_transaction` (models.py lines 353-430): insert the
transaction row, dispatch to the buy/sell handler, commit on success and roll
the whole state back on any error. -/
def add_transaction (s : DBState) (ticker trans_type : String) (quantity : Int) (price : ℚ)
    (market : String) (notes : String) (date_n time_n now : Nat) :
    DBState × Except LedgerError TxOk :=
  let tk := normTicker ticker
  let tt := upperStr trans_type
  if tx_check tt quantity price market then
    let tx : Transaction := ⟨s.next_tx_id, tk, tt, quantity, price, date_n, time_n, market, notes⟩
    if tt = "BUY" then
      ({ s with
          transactions := s.transactions ++ [tx],
          positions := handle_buy s.positions tk quantity price market now,
          next_tx_id := s.next_tx_id + 1 },
       .ok ⟨s.next_tx_id, none, none⟩)
    else
      match handle_sell s.positions tk quantity price date_n time_n s.next_pnl_id now with
      | .error e => (s, .error e)
      | .ok out =>
        ({ s with
            transactions := s.transactions ++ [tx],
            positions := out.positions,
            realized_pnl := s.realized_pnl ++ [out.pnl_record],
            next_tx_id := s.next_tx_id + 1,
            next_pnl_id := s.next_pnl_id + 1 },
         .ok ⟨s.next_tx_id, some out.realized_pnl, some out.realized_pnl_percent⟩)
  else
    (s, .error .checkViolation)

/-! ### Query functions (models.py lines 436-589) -/

/-- The `ORDER BY ticker` relation of `get_all_positions`. -/
def pos_le (p q : Position) : Prop := strLe p.ticker q.ticker = true

instance : DecidableRel pos_le := fun p q => by
  unfold pos_le
  infer_instance

/-- Model of `get_all_positions` (models.py lines 436-472): all position rows,
ordered by ticker ascending. -/
def get_all_positions (s : DBState) : List Position :=
  s.positions.insertionSort pos_le

/-- The `ORDER BY date DESC, time DESC` relation of `get_transaction_history`. -/
def tx_newest_first (a b : Transaction) : Prop :=
  b.date < a.date ∨ (b.date = a.date ∧ b.time ≤ a.time)

instance : DecidableRel tx_newest_first := fun a b => by
  unfold tx_newest_first
  infer_instance

/-- Model of `get_transaction_history` (models.py lines 474-524): optional
ticker filter (Python `if ticker:` treats the empty string like `None`),
newest-first ordering, `LIMIT ?`.  SQLite returns all rows for a negative
limit and no rows for a zero limit; no validation of `limit` is performed. -/
def get_transaction_history (s : DBState) (ticker : Option String) (limit : Int) :
    List Transaction :=
  let rows :=
    match ticker with
    | some t =>
        if t = "" then s.transactions
        else s.transactions.filter (fun tx => decide (tx.ticker = upperStr t))
    | none => s.transactions
  let sorted := rows.insertionSort tx_newest_first
  if limit < 0 then sorted else sorted.take limit.toNat

/-- The summary dict returned by `get_realized_pnl_summary`. -/
structure PnlSummary where
  total_pnl : ℚ
  total_trades : Nat
  winning_trades : Nat
  losing_trades : Nat
  win_rate : ℚ
deriving DecidableEq

/-- The rows the summary aggregates over (the SQL `WHERE ticker = ?` filter;
Python `if ticker:` treats the empty string like `None`). -/
def realized_rows (s : DBState) (ticker : Option String) : List RealizedPnL :=
  match ticker with
  | some t =>
      if t = "" then s.realized_pnl
      else s.realized_pnl.filter (fun r => decide (r.ticker = upperStr t))
  | none => s.realized_pnl

/-- Model of `get_realized_pnl_summary` (models.py lines 526-589).  `SUM(pnl)`
is `NULL` exactly when no row matches, which is the `row[0] is None` branch. -/
def get_realized_pnl_summary (s : DBState) (ticker : Option String) : PnlSummary :=
  match realized_rows s ticker with
  | [] => ⟨0, 0, 0, 0, 0⟩
  | rows@(_ :: _) =>
    let total_pnl := (rows.map RealizedPnL.pnl).sum
    let total_trades := rows.length
    let winning_trades := (rows.filter (fun r => decide (0 < r.pnl))).length
    let losing_trades := (rows.filter (fun r => decide (r.pnl < 0))).length
    let win_rate :=
      if 0 < total_trades then (winning_trades : ℚ) / (total_trades : ℚ) * 100 else 0
    ⟨total_pnl, total_trades, winning_trades, losing_trades, win_rate⟩

/-- Model of `clear_all_data` (models.py lines 595-626): delete every row of
all four tables (the `AUTOINCREMENT` sequences are not reset). -/
def clear_all_data (s : DBState) : DBState :=
  { s with transactions := [], positions := [], price_cache := [], realized_pnl := [] }

/-! ### Price cache and price resolution (models.py lines 634-702) -/

/-- The `SELECT ... FROM price_cache WHERE ticker = ?` lookup. -/
def find_cache (cs : List PriceCacheEntry) (ticker : String) : Option PriceCacheEntry :=
  cs.find? (fun e => decide (e.ticker = ticker))

/-- The `INSERT OR REPLACE INTO price_cache` upsert. -/
def upsert_cache (cs : List PriceCacheEntry) (ticker : String) (price : ℚ) (now : Nat) :
    List PriceCacheEntry :=
  match find_cache cs ticker with
  | some _ => cs.map (fun e => if e.ticker = ticker then ⟨ticker, price, now⟩ else e)
  | none => cs ++ [⟨ticker, price, now⟩]

/-- The freshness window: 5 minutes, in seconds. -/
def freshness_window : Nat := 300

/-- Model of `get_current_price` (models.py lines 634-702): serve a cache
entry younger than 5 minutes, otherwise fall through to the market's price
source (`fetchVN` / `fetchUS`), writing a successful fetch back to the cache
and returning `none` on adapter failure. -/
def get_current_price (s : DBState) (fetchVN fetchUS : String → Option ℚ)
    (ticker market : String) (now : Nat) : Option ℚ × DBState :=
  let tk := normTicker ticker
  let fresh :=
    match find_cache s.price_cache tk with
    | some e => if now - e.last_updated < freshness_window then some e.price else none
    | none => none
  match fresh with
  | some p => (some p, s)
  | none =>
    match (if market = "VN" then fetchVN tk else fetchUS tk) with
    | none => (none, s)
    | some p => (some p, { s with price_cache := upsert_cache s.price_cache tk p now })

/-! ### Portfolio report (portfolio_server.py lines 202-274) -/

/-- One row of the `view_portfolio` table.  `price_result` is
`some (current_price, invested, current_value, pnl)` for a priced row and
`none` for a pending row (the Python branch prints `Đang lấy...`). -/
structure ReportRow where
  ticker : String
  quantity : Int
  avg_buy_price : ℚ
  market : String
  price_result : Option (ℚ × ℚ × ℚ × ℚ)
deriving DecidableEq

/-- The report: its rows and the two running totals. -/
structure Report where
  rows : List ReportRow
  total_invested : ℚ
  total_current_value : ℚ
deriving DecidableEq

/-- The loop body of `view_portfolio` (portfolio_server.py lines 224-255),
threading the price cache through successive `get_current_price` calls.
Python tests the fetched price with `if current_price:`, so a price of
exactly `0` falls into the pending branch. -/
def view_portfolio_loop (fetchVN fetchUS : String → Option ℚ) (now : Nat) :
    List Position → DBState → List ReportRow → ℚ → ℚ → Report × DBState
  | [], s, rows, ti, tv => (⟨rows, ti, tv⟩, s)
  | pos :: rest, s, rows, ti, tv =>
    let pr := get_current_price s fetchVN fetchUS pos.ticker pos.market now
    match pr.1 with
    | some p =>
      if p ≠ 0 then
        let invested := pos.avg_buy_price * (pos.quantity : ℚ)
        let current_value := p * (pos.quantity : ℚ)
        let pnl := current_value - invested
        view_portfolio_loop fetchVN fetchUS now rest pr.2
          (rows ++ [⟨pos.ticker, pos.quantity, pos.avg_buy_price, pos.market,
                     some (p, invested, current_value, pnl)⟩])
          (ti + invested) (tv + current_value)
      else
        view_portfolio_loop fetchVN fetchUS now rest pr.2
          (rows ++ [⟨pos.ticker, pos.quantity, pos.avg_buy_price, pos.market, none⟩]) ti tv
    | none =>
      view_portfolio_loop fetchVN fetchUS now rest pr.2
        (rows ++ [⟨pos.ticker, pos.quantity, pos.avg_buy_price, pos.market, none⟩]) ti tv

/-- Model of `view_portfolio` (portfolio_server.py lines 202-274): one row per
position in ticker order; totals accumulate only over rows whose price
resolved to a truthy value. -/
def view_portfolio (s : DBState) (fetchVN fetchUS : String → Option ℚ) (now : Nat) :
    Report × DBState :=
  view_portfolio_loop fetchVN fetchUS now (get_all_positions s) s [] 0 0

/-! ### Operation sequences (for the persisted-state invariant) -/

/-- A caller-visible mutating operation. -/
inductive Op where
  | buy (ticker : String) (quantity : Int) (price : ℚ) (market notes : String)
        (date_n time_n now : Nat)
  | sell (ticker : String) (quantity : Int) (price : ℚ) (market notes : String)
         (date_n time_n now : Nat)
  | reset

/-- Apply one operation to the database, as the MCP tools do. -/
def apply_op (s : DBState) : Op → DBState
  | .buy t q p m n d tm now => (add_transaction s t "BUY" q p m n d tm now).1
  | .sell t q p m n d tm now => (add_transaction s t "SELL" q p m n d tm now).1
  | .reset => clear_all_data s

/-- Run a sequence of operations from the freshly initialised database. -/
def run_ops (ops : List Op) : DBState := ops.foldl apply_op DBState.empty

/-- The persisted-positions invariant: every stored row has positive quantity
and positive average buy price (the `CHECK` constraints of the `positions`
table demand `quantity >= 0` and `avg_buy_price > 0`; the code maintains the
strictly stronger `quantity > 0`). -/
def positions_ok (ps : List Position) : Prop :=
  ∀ p ∈ ps, 0 < p.quantity ∧ 0 < p.avg_buy_price

/-! ### Statement helpers for the report claims -/

/-- The bookkeeping a priced report row must satisfy: the price is truthy and
invested, current value and unrealized pnl follow the formulas of
portfolio_server.py lines 234-236; pending rows carry no figures. -/
def report_row_ok (r : ReportRow) : Prop :=
  match r.price_result with
  | none => True
  | some x => x.1 ≠ 0 ∧ x.2.1 = r.avg_buy_price * (r.quantity : ℚ) ∧
      x.2.2.1 = x.1 * (r.quantity : ℚ) ∧ x.2.2.2 = x.2.2.1 - x.2.1

/-- A row's contribution to total_invested (pending rows contribute 0). -/
def row_invested (r : ReportRow) : ℚ :=
  match r.price_result with
  | none => 0
  | some x => x.2.1

/-- A row's contribution to total_current_value (pending rows contribute 0). -/
def row_value (r : ReportRow) : ℚ :=
  match r.price_result with
  | none => 0
  | some x => x.2.2.1

/-- The fields of a report row copied from the position it renders. -/
def row_proj (r : ReportRow) : String × Int × ℚ × String :=
  (r.ticker, r.quantity, r.avg_buy_price, r.market)

/-- The corresponding projection of a position row. -/
def pos_proj (p : Position) : String × Int × ℚ × String :=
  (p.ticker, p.quantity, p.avg_buy_price, p.market)

/-- The sequence of `get_current_price` outcomes the report loop observes, in
position order, threading the cache state exactly as the loop does. -/
def resolve_prices (fetchVN fetchUS : String → Option ℚ) (now : Nat) :
    List Position → DBState → List (Option ℚ)
  | [], _ => []
  | pos :: rest, s =>
    let pr := get_current_price s fetchVN fetchUS pos.ticker pos.market now
    pr.1 :: resolve_prices fetchVN fetchUS now rest pr.2

/-- The report row each position yields for a given price outcome: a price
that resolved to a truthy (nonzero) value gives a priced row carrying
invested = avgPrice*quantity, currentValue = price*quantity and
unrealizedPnL = currentValue - invested; a failed fetch, or the Python-falsy
price 0, gives a pending row. -/
def build_rows : List Position → List (Option ℚ) → List ReportRow
  | [], _ => []
  | _ :: _, [] => []
  | pos :: rest, pr :: prs =>
    (match pr with
     | some p =>
       if p ≠ 0 then
         ⟨pos.ticker, pos.quantity, pos.avg_buy_price, pos.market,
          some (p, pos.avg_buy_price * (pos.quantity : ℚ), p * (pos.quantity : ℚ),
            p * (pos.quantity : ℚ) - pos.avg_buy_price * (pos.quantity : ℚ))⟩
       else ⟨pos.ticker, pos.quantity, pos.avg_buy_price, pos.market, none⟩
     | none => ⟨pos.ticker, pos.quantity, pos.avg_buy_price, pos.market, none⟩) ::
    build_rows rest prs

/-! ### Iterated buys (for the weighted-average property) -/

/-- Total quantity of a list of `(quantity, price)` buys. -/
def sumQ (buys : List (Int × ℚ)) : Int := (buys.map Prod.fst).sum

/-- Total cost of a list of `(quantity, price)` buys. -/
def sumQP (buys : List (Int × ℚ)) : ℚ := (buys.map (fun b => (b.1 : ℚ) * b.2)).sum

/-- Fold a list of buys through `handle_buy` for one ticker. -/
def apply_buys (ps : List Position) (tk m : String) (now : Nat)
    (buys : List (Int × ℚ)) : List Position :=
  buys.foldl (fun acc b => handle_buy acc tk b.1 b.2 m now) ps

/-! ### Lemmas about position lookup and the buy handler -/

theorem find_position_mem {ps : List Position} {tk : String} {pos : Position}
    (h : find_position ps tk = some pos) : pos ∈ ps ∧ pos.ticker = tk := by
  refine ⟨List.mem_of_find?_eq_some h, ?_⟩
  have := List.find?_some h
  simpa using this

theorem find_position_map_update (ps : List Position) (tk : String) (f : Position → Position)
    (hf : ∀ p, (f p).ticker = p.ticker) :
    find_position (ps.map (fun p => if p.ticker = tk then f p else p)) tk =
      Option.map (fun p => if p.ticker = tk then f p else p) (find_position ps tk) := by
  induction ps with
  | nil => rfl
  | cons a as ih =>
    by_cases h : a.ticker = tk
    · have h2 : (f a).ticker = tk := by rw [hf a, h]
      simp [find_position, List.find?_cons, h, h2]
    · simp only [find_position, List.map_cons, List.find?_cons, if_neg h] at *
      simp [h, ih]

theorem handle_buy_fresh {ps : List Position} {tk : String} (q : Int) (p : ℚ) (m : String)
    (now : Nat) (h : find_position ps tk = none) :
    handle_buy ps tk q p m now = ps ++ [⟨tk, q, p, m, now⟩] := by
  unfold handle_buy
  rw [h]

theorem find_position_append_single {ps : List Position} {tk : String} {x : Position}
    (h : find_position ps tk = none) (hx : x.ticker = tk) :
    find_position (ps ++ [x]) tk = some x := by
  unfold find_position at *
  rw [List.find?_append, h]
  simp [hx]

theorem handle_buy_existing {ps : List Position} {tk : String} {pos : Position}
    (q : Int) (p : ℚ) (m : String) (now : Nat)
    (h : find_position ps tk = some pos) :
    find_position (handle_buy ps tk q p m now) tk =
      some { pos with
              quantity := pos.quantity + q,
              avg_buy_price := ((pos.quantity : ℚ) * pos.avg_buy_price + (q : ℚ) * p) /
                ((pos.quantity + q : Int) : ℚ),
              last_updated := now } := by
  unfold handle_buy
  rw [h]
  simp only
  rw [find_position_map_update ps tk
        (fun p1 => { p1 with
                      quantity := pos.quantity + q,
                      avg_buy_price := ((pos.quantity : ℚ) * pos.avg_buy_price + (q : ℚ) * p) /
                        ((pos.quantity + q : Int) : ℚ),
                      last_updated := now })
        (fun _ => rfl), h]
  have htk : pos.ticker = tk := (find_position_mem h).2
  simp [htk]

theorem sumQ_nonneg {buys : List (Int × ℚ)} (hb : ∀ b ∈ buys, 0 < b.1) : 0 ≤ sumQ buys := by
  unfold sumQ
  apply List.sum_nonneg
  intro x hx
  obtain ⟨b, hbm, hbe⟩ := List.mem_map.mp hx
  exact hbe ▸ (hb b hbm).le

theorem sumQ_pos {buys : List (Int × ℚ)} (h : buys ≠ []) (hb : ∀ b ∈ buys, 0 < b.1) :
    0 < sumQ buys := by
  cases buys with
  | nil => exact absurd rfl h
  | cons b bs =>
    have h1 : 0 < b.1 := hb b (List.mem_cons_self b bs)
    have h2 : 0 ≤ sumQ bs := sumQ_nonneg (fun x hx => hb x (List.mem_cons_of_mem _ hx))
    have h3 : sumQ (b :: bs) = b.1 + sumQ bs := by simp [sumQ]
    omega

theorem sumQ_cons (b : Int × ℚ) (bs : List (Int × ℚ)) : sumQ (b :: bs) = b.1 + sumQ bs := by
  simp [sumQ]

theorem sumQP_cons (b : Int × ℚ) (bs : List (Int × ℚ)) :
    sumQP (b :: bs) = (b.1 : ℚ) * b.2 + sumQP bs := by
  simp [sumQP]

theorem apply_buys_spec (tk m : String) (now : Nat) (buys : List (Int × ℚ)) :
    ∀ ps pos, find_position ps tk = some pos → 0 < pos.quantity →
      (∀ b ∈ buys, 0 < b.1) →
      ∃ pos2, find_position (apply_buys ps tk m now buys) tk = some pos2 ∧
        pos2.quantity = pos.quantity + sumQ buys ∧
        (pos2.quantity : ℚ) * pos2.avg_buy_price =
          (pos.quantity : ℚ) * pos.avg_buy_price + sumQP buys := by
  induction buys with
  | nil =>
    intro ps pos h _ _
    exact ⟨pos, by simpa [apply_buys] using h, by simp [sumQ], by simp [sumQP]⟩
  | cons b bs ih =>
    intro ps pos h hq hb
    have hb1 : 0 < b.1 := (hb b (List.mem_cons_self b bs))
    have hstep := handle_buy_existing b.1 b.2 m now h
    have hq1 : (0 : Int) < pos.quantity + b.1 := by omega
    obtain ⟨pos2, h2, hq2, hc2⟩ :=
      ih (handle_buy ps tk b.1 b.2 m now) _ hstep (by simpa using hq1)
        (fun x hx => hb x (List.mem_cons_of_mem _ hx))
    refine ⟨pos2, by simpa [apply_buys] using h2, ?_, ?_⟩
    · simp only [sumQ_cons]
      rw [hq2]
      ring
    · simp only [sumQP_cons]
      rw [hc2]
      simp only
      have hne : ((pos.quantity + b.1 : Int) : ℚ) ≠ 0 := by
        exact_mod_cast hq1.ne'
      field_simp
      ring

/-- C1: For every sequence of BUY operations on a fresh ticker (each with
quantity > 0 and price > 0), the resulting position's quantity equals the sum
of all bought quantities and its average buy price equals the
quantity-weighted mean of all buy prices; a buy on an existing position with
oldQty and oldAvg produces newQty = oldQty + quantity and
newAvg = (oldQty*oldAvg + quantity*price) / newQty, and a first buy produces
quantity = quantity, avgPrice = price. -/
theorem buy_weighted_average_cost :
    (∀ (ps : List Position) (tk : String) (q : Int) (p : ℚ) (m : String) (now : Nat),
      find_position ps tk = none →
        find_position (handle_buy ps tk q p m now) tk = some ⟨tk, q, p, m, now⟩) ∧
    (∀ (ps : List Position) (tk : String) (pos : Position) (q : Int) (p : ℚ) (m : String)
        (now : Nat),
      find_position ps tk = some pos →
        find_position (handle_buy ps tk q p m now) tk =
          some { pos with
                  quantity := pos.quantity + q,
                  avg_buy_price := ((pos.quantity : ℚ) * pos.avg_buy_price + (q : ℚ) * p) /
                    ((pos.quantity + q : Int) : ℚ),
                  last_updated := now }) ∧
    (∀ (ps : List Position) (tk m : String) (now : Nat) (buys : List (Int × ℚ)),
      find_position ps tk = none → buys ≠ [] → (∀ b ∈ buys, 0 < b.1 ∧ 0 < b.2) →
        ∃ pos2, find_position (apply_buys ps tk m now buys) tk = some pos2 ∧
          pos2.quantity = sumQ buys ∧
          pos2.avg_buy_price = sumQP buys / ((sumQ buys : Int) : ℚ)) := by
  refine ⟨?_, ?_, ?_⟩
  · intro ps tk q p m now h
    rw [handle_buy_fresh q p m now h]
    exact find_position_append_single h rfl
  · intro ps tk pos q p m now h
    exact handle_buy_existing q p m now h
  · intro ps tk m now buys h hne hb
    cases buys with
    | nil => exact absurd rfl hne
    | cons b bs =>
      have hb1 : 0 < b.1 := (hb b (List.mem_cons_self b bs)).1
      have h0 : find_position (handle_buy ps tk b.1 b.2 m now) tk =
          some ⟨tk, b.1, b.2, m, now⟩ := by
        rw [handle_buy_fresh b.1 b.2 m now h]
        exact find_position_append_single h rfl
      obtain ⟨pos2, hfind, hq2, hc2⟩ :=
        apply_buys_spec tk m now bs (handle_buy ps tk b.1 b.2 m now) ⟨tk, b.1, b.2, m, now⟩ h0
          (by simpa using hb1) (fun x hx => (hb x (List.mem_cons_of_mem _ hx)).1)
      have hq2a : pos2.quantity = sumQ (b :: bs) := by
        rw [sumQ_cons]
        simpa using hq2
      have hc2a : (pos2.quantity : ℚ) * pos2.avg_buy_price = sumQP (b :: bs) := by
        rw [sumQP_cons]
        simpa using hc2
      have hpos : 0 < sumQ (b :: bs) := sumQ_pos (by simp) (fun x hx => (hb x hx).1)
      refine ⟨pos2, by simpa [apply_buys] using hfind, hq2a, ?_⟩
      have hne2 : ((sumQ (b :: bs) : Int) : ℚ) ≠ 0 := by exact_mod_cast hpos.ne'
      rw [hq2a] at hc2a
      exact eq_div_of_mul_eq hne2 (by rw [mul_comm]; exact hc2a)

/-- Witness for C1: the spec's own example, BUY 100 @ 85000 then BUY 50 @ 88000
on a fresh ticker gives quantity 150 and average price 86000 (the
quantity-weighted mean). -/
theorem buy_weighted_average_cost_witness :
    ∃ pos2,
      find_position (apply_buys [] "VNM" "VN" 7 [(100, 85000), (50, 88000)]) "VNM" = some pos2 ∧
      pos2.quantity = sumQ [(100, 85000), (50, 88000)] ∧
      pos2.avg_buy_price = sumQP [(100, 85000), (50, 88000)] /
        ((sumQ [(100, 85000), (50, 88000)] : Int) : ℚ) :=
  buy_weighted_average_cost.2.2 [] "VNM" "VN" 7 [(100, 85000), (50, 88000)] rfl (by simp)
    (by
      intro b hb
      simp only [List.mem_cons, List.mem_singleton] at hb
      rcases hb with h | h | h
      · rw [h]; norm_num
      · rw [h]; norm_num
      · exact absurd h (by simp))

/-! ### The persisted-positions invariant (C10) -/

theorem handle_buy_positions_ok {ps : List Position} {tk : String} {q : Int} {p : ℚ}
    {m : String} {now : Nat} (hps : positions_ok ps) (hq : 0 < q) (hp : 0 < p) :
    positions_ok (handle_buy ps tk q p m now) := by
  unfold handle_buy
  cases hfp : find_position ps tk with
  | none =>
    intro x hx
    rcases List.mem_append.mp hx with hx | hx
    · exact hps x hx
    · simp only [List.mem_singleton] at hx
      subst hx
      exact ⟨hq, hp⟩
  | some pos =>
    have hpos := hps pos (find_position_mem hfp).1
    intro x hx
    simp only at hx
    obtain ⟨a, ha, hax⟩ := List.mem_map.mp hx
    by_cases h : a.ticker = tk
    · rw [if_pos h] at hax
      subst hax
      refine ⟨by have := hpos.1; simp only; omega, ?_⟩
      simp only
      apply div_pos
      · have h1 : (0 : ℚ) < (pos.quantity : ℚ) * pos.avg_buy_price :=
          mul_pos (by exact_mod_cast hpos.1) hpos.2
        have h2 : (0 : ℚ) < (q : ℚ) * p := mul_pos (by exact_mod_cast hq) hp
        linarith
      · have : (0 : Int) < pos.quantity + q := by have := hpos.1; omega
        exact_mod_cast this
    · rw [if_neg h] at hax
      subst hax
      exact hps a ha

theorem handle_sell_positions_ok {ps : List Position} {tk : String} {q : Int} {sp : ℚ}
    {d t pid now : Nat} {out : SellOutcome} (hps : positions_ok ps)
    (h : handle_sell ps tk q sp d t pid now = .ok out) :
    positions_ok out.positions := by
  unfold handle_sell at h
  cases hfp : find_position ps tk with
  | none =>
    rw [hfp] at h
    exact absurd h (by simp)
  | some pos =>
    rw [hfp] at h
    dsimp only at h
    by_cases hlt : pos.quantity < q
    · rw [if_pos hlt] at h
      exact absurd h (by simp)
    · rw [if_neg hlt] at h
      simp only [Except.ok.injEq] at h
      rw [← h]
      simp only
      by_cases hz : pos.quantity - q = 0
      · rw [if_pos hz]
        intro x hx
        exact hps x (List.mem_filter.mp hx).1
      · rw [if_neg hz]
        intro x hx
        obtain ⟨a, ha, hax⟩ := List.mem_map.mp hx
        by_cases htk : a.ticker = tk
        · rw [if_pos htk] at hax
          subst hax
          exact ⟨by simp only; omega, by simpa using (hps a ha).2⟩
        · rw [if_neg htk] at hax
          subst hax
          exact hps a ha

theorem add_transaction_positions_ok {s : DBState} {ticker trans_type : String} {q : Int}
    {p : ℚ} {m n : String} {d t now : Nat} (hps : positions_ok s.positions) :
    positions_ok (add_transaction s ticker trans_type q p m n d t now).1.positions := by
  unfold add_transaction
  by_cases hchk : tx_check (upperStr trans_type) q p m
  · rw [if_pos hchk]
    by_cases hbuy : upperStr trans_type = "BUY"
    · rw [if_pos hbuy]
      exact handle_buy_positions_ok hps hchk.1 hchk.2.1
    · rw [if_neg hbuy]
      cases hsell : handle_sell s.positions (normTicker ticker) q p d t s.next_pnl_id now with
      | error e => simpa using hps
      | ok out =>
        simp only
        exact handle_sell_positions_ok hps hsell
  · rw [if_neg hchk]
    exact hps

theorem positions_invariant_aux (ops : List Op) :
    ∀ s, positions_ok s.positions → positions_ok ((ops.foldl apply_op s).positions) := by
  induction ops with
  | nil => exact fun s h => h
  | cons op rest ih =>
    intro s h
    rw [List.foldl_cons]
    apply ih
    cases op with
    | buy tk q p m n d tm now => exact add_transaction_positions_ok h
    | sell tk q p m n d tm now => exact add_transaction_positions_ok h
    | reset =>
      intro x hx
      simp [clear_all_data, apply_op] at hx

/-- C10: after every sequence of buy, sell, and reset operations starting from
the empty state, every Position row has quantity > 0 and average buy price > 0
(a sell that empties a position deletes its row; a buy writes positive
quantity and price; the rejected operations change nothing). -/
theorem persisted_positions_positive (ops : List Op) :
    positions_ok (run_ops ops).positions :=
  positions_invariant_aux ops DBState.empty
    (by intro x hx; simp [DBState.empty] at hx)

/-! ### Characterizations of `add_transaction` (shared by the sell claims) -/

theorem upperStr_SELL : upperStr "SELL" = "SELL" := by decide

theorem upperStr_BUY : upperStr "BUY" = "BUY" := by decide

theorem add_transaction_sell_ok_eq {s : DBState} {ticker : String} {q : Int} {p : ℚ}
    {market notes : String} {d t now : Nat} {pos : Position}
    (hfp : find_position s.positions (normTicker ticker) = some pos)
    (hq : 0 < q) (hle : q ≤ pos.quantity) (hp : 0 < p)
    (hm : market = "VN" ∨ market = "US") :
    add_transaction s ticker "SELL" q p market notes d t now =
      ({ s with
          transactions := s.transactions ++
            [⟨s.next_tx_id, normTicker ticker, "SELL", q, p, d, t, market, notes⟩],
          positions :=
            if pos.quantity - q = 0 then
              s.positions.filter (fun pp => decide (pp.ticker ≠ normTicker ticker))
            else
              s.positions.map (fun pp =>
                if pp.ticker = normTicker ticker then
                  { pp with quantity := pos.quantity - q, last_updated := now }
                else pp),
          realized_pnl := s.realized_pnl ++
            [⟨s.next_pnl_id, normTicker ticker, q, pos.avg_buy_price, p,
              (p - pos.avg_buy_price) * (q : ℚ),
              (p - pos.avg_buy_price) / pos.avg_buy_price * 100, d, t⟩],
          next_tx_id := s.next_tx_id + 1,
          next_pnl_id := s.next_pnl_id + 1 },
       .ok ⟨s.next_tx_id, some ((p - pos.avg_buy_price) * (q : ℚ)),
            some ((p - pos.avg_buy_price) / pos.avg_buy_price * 100)⟩) := by
  have hchk : tx_check (upperStr "SELL") q p market := by
    rw [upperStr_SELL]
    exact ⟨hq, hp, Or.inr rfl, hm⟩
  unfold add_transaction
  rw [if_pos hchk, upperStr_SELL]
  rw [if_neg (by decide : ¬ ("SELL" : String) = "BUY")]
  unfold handle_sell
  rw [hfp]
  dsimp only
  rw [if_neg (by omega : ¬ pos.quantity < q)]

theorem add_transaction_buy_eq {s : DBState} {ticker : String} {q : Int} {p : ℚ}
    {market notes : String} {d t now : Nat}
    (hq : 0 < q) (hp : 0 < p) (hm : market = "VN" ∨ market = "US") :
    add_transaction s ticker "BUY" q p market notes d t now =
      ({ s with
          transactions := s.transactions ++
            [⟨s.next_tx_id, normTicker ticker, "BUY", q, p, d, t, market, notes⟩],
          positions := handle_buy s.positions (normTicker ticker) q p market now,
          next_tx_id := s.next_tx_id + 1 },
       .ok ⟨s.next_tx_id, none, none⟩) := by
  have hchk : tx_check (upperStr "BUY") q p market := by
    rw [upperStr_BUY]
    exact ⟨hq, hp, Or.inl rfl, hm⟩
  unfold add_transaction
  rw [if_pos hchk, upperStr_BUY]
  rw [if_pos rfl]

/-- C2: a sell request whose quantity strictly exceeds the held quantity of an
open position returns the InsufficientQuantity error carrying both the
available and the requested quantity, and the returned state is exactly the
input state: no Position, Transaction, or RealizedPnL write survives (the
Python transaction insert is rolled back by the exception handler). -/
theorem sell_insufficient_rejected {s : DBState} {ticker : String} {q : Int} {p : ℚ}
    {market notes : String} {d t now : Nat} {pos : Position}
    (hfp : find_position s.positions (normTicker ticker) = some pos)
    (hlt : pos.quantity < q) (hq : 0 < q) (hp : 0 < p)
    (hm : market = "VN" ∨ market = "US") :
    add_transaction s ticker "SELL" q p market notes d t now =
      (s, .error (.insufficientQuantity pos.quantity q)) := by
  have hchk : tx_check (upperStr "SELL") q p market := by
    rw [upperStr_SELL]
    exact ⟨hq, hp, Or.inr rfl, hm⟩
  unfold add_transaction
  rw [if_pos hchk, upperStr_SELL]
  rw [if_neg (by decide : ¬ ("SELL" : String) = "BUY")]
  unfold handle_sell
  rw [hfp]
  dsimp only
  rw [if_pos hlt]

/-- Witness for C2: selling 150 shares of a 100-share position is rejected
with InsufficientQuantity (available 100, requested 150) and the database
value is returned unchanged. -/
theorem sell_insufficient_rejected_witness :
    add_transaction ⟨[], [⟨"VNM", 100, 85000, "VN", 0⟩], [], [], 1, 1⟩
        "VNM" "SELL" 150 90000 "VN" "" 2 3 4 =
      (⟨[], [⟨"VNM", 100, 85000, "VN", 0⟩], [], [], 1, 1⟩,
       .error (.insufficientQuantity 100 150)) :=
  @sell_insufficient_rejected ⟨[], [⟨"VNM", 100, 85000, "VN", 0⟩], [], [], 1, 1⟩
    "VNM" 150 90000 "VN" "" 2 3 4 ⟨"VNM", 100, 85000, "VN", 0⟩
    (by decide) (by decide) (by decide) (by norm_num) (Or.inl rfl)

/-- C3: a sell against a ticker with no open position returns the
PositionNotFound error and the returned state is exactly the input state:
transactions, positions and realized_pnl are all unchanged. -/
theorem sell_no_position_rejected {s : DBState} {ticker : String} {q : Int} {p : ℚ}
    {market notes : String} {d t now : Nat}
    (hfp : find_position s.positions (normTicker ticker) = none)
    (hq : 0 < q) (hp : 0 < p) (hm : market = "VN" ∨ market = "US") :
    add_transaction s ticker "SELL" q p market notes d t now =
      (s, .error (.positionNotFound (normTicker ticker))) := by
  have hchk : tx_check (upperStr "SELL") q p market := by
    rw [upperStr_SELL]
    exact ⟨hq, hp, Or.inr rfl, hm⟩
  unfold add_transaction
  rw [if_pos hchk, upperStr_SELL]
  rw [if_neg (by decide : ¬ ("SELL" : String) = "BUY")]
  unfold handle_sell
  rw [hfp]

/-- Witness for C3: selling from the freshly initialised (empty) database is
rejected with PositionNotFound and the state value is unchanged. -/
theorem sell_no_position_rejected_witness :
    add_transaction DBState.empty "VNM" "SELL" 10 90000 "VN" "" 2 3 4 =
      (DBState.empty, .error (.positionNotFound "VNM")) :=
  sell_no_position_rejected (by decide) (by decide) (by norm_num) (Or.inl rfl)

/-- C4: a successful sell of quantity q at price p against a position with
average buy price a computes pnl = (p - a) * q and
pnlPercent = (p - a) / a * 100 exactly, and appends exactly one RealizedPnL
row (buy price a, sell price p, pnl, pnlPercent) and exactly one SELL
Transaction row. -/
theorem sell_realized_pnl_exact {s : DBState} {ticker : String} {q : Int} {p : ℚ}
    {market notes : String} {d t now : Nat} {pos : Position}
    (hfp : find_position s.positions (normTicker ticker) = some pos)
    (hq : 0 < q) (hle : q ≤ pos.quantity) (hp : 0 < p)
    (hm : market = "VN" ∨ market = "US") :
    (add_transaction s ticker "SELL" q p market notes d t now).1.realized_pnl =
        s.realized_pnl ++
          [⟨s.next_pnl_id, normTicker ticker, q, pos.avg_buy_price, p,
            (p - pos.avg_buy_price) * (q : ℚ),
            (p - pos.avg_buy_price) / pos.avg_buy_price * 100, d, t⟩] ∧
    (add_transaction s ticker "SELL" q p market notes d t now).1.transactions =
        s.transactions ++
          [⟨s.next_tx_id, normTicker ticker, "SELL", q, p, d, t, market, notes⟩] ∧
    (add_transaction s ticker "SELL" q p market notes d t now).2 =
        .ok ⟨s.next_tx_id, some ((p - pos.avg_buy_price) * (q : ℚ)),
             some ((p - pos.avg_buy_price) / pos.avg_buy_price * 100)⟩ := by
  rw [add_transaction_sell_ok_eq hfp hq hle hp hm]
  exact ⟨rfl, rfl, rfl⟩

/-- Witness for C4: selling 40 of 100 shares bought at 85000 for 90000 appends
the single RealizedPnL row with pnl = 200000 and pnlPercent = 100/17, and the
single SELL transaction row. -/
theorem sell_realized_pnl_exact_witness :
    (add_transaction ⟨[], [⟨"VNM", 100, 85000, "VN", 0⟩], [], [], 1, 1⟩
        "VNM" "SELL" 40 90000 "VN" "" 2 3 4).1.realized_pnl =
      [⟨1, "VNM", 40, 85000, 90000, 200000, 100 / 17, 2, 3⟩] ∧
    (add_transaction ⟨[], [⟨"VNM", 100, 85000, "VN", 0⟩], [], [], 1, 1⟩
        "VNM" "SELL" 40 90000 "VN" "" 2 3 4).1.transactions =
      [⟨1, "VNM", "SELL", 40, 90000, 2, 3, "VN", ""⟩] := by
  have h := @sell_realized_pnl_exact ⟨[], [⟨"VNM", 100, 85000, "VN", 0⟩], [], [], 1, 1⟩
    "VNM" 40 90000 "VN" "" 2 3 4 ⟨"VNM", 100, 85000, "VN", 0⟩
    (by decide) (by decide) (by decide) (by norm_num) (Or.inl rfl)
  refine ⟨?_, ?_⟩
  · rw [h.1]
    norm_num [show normTicker "VNM" = "VNM" from by decide]
  · rw [h.2.1]
    norm_num [show normTicker "VNM" = "VNM" from by decide]

theorem find_position_filter_ne (ps : List Position) (tk : String) :
    find_position (ps.filter (fun p => decide (p.ticker ≠ tk))) tk = none := by
  apply List.find?_eq_none.mpr
  intro x hx
  have hpred := (List.mem_filter.mp hx).2
  simp only [decide_eq_true_eq] at hpred ⊢
  exact hpred

/-- C5: a successful sell of q from a position holding Q: if q < Q the stored
row keeps its average buy price and market and its quantity becomes Q - q; if
q = Q the row is deleted, and a subsequent BUY on the same ticker creates a
fresh position whose average buy price is that buy's price alone. -/
theorem sell_position_lifecycle {s : DBState} {ticker : String} {q : Int} {p : ℚ}
    {market notes : String} {d t now : Nat} {pos : Position}
    (hfp : find_position s.positions (normTicker ticker) = some pos)
    (hq : 0 < q) (hp : 0 < p) (hm : market = "VN" ∨ market = "US") :
    (q < pos.quantity →
      find_position (add_transaction s ticker "SELL" q p market notes d t now).1.positions
          (normTicker ticker) =
        some { pos with quantity := pos.quantity - q, last_updated := now }) ∧
    (q = pos.quantity →
      find_position (add_transaction s ticker "SELL" q p market notes d t now).1.positions
          (normTicker ticker) = none ∧
      ∀ (q2 : Int) (p2 : ℚ) (market2 notes2 : String) (d2 t2 now2 : Nat),
        0 < q2 → 0 < p2 → (market2 = "VN" ∨ market2 = "US") →
        find_position
          (add_transaction (add_transaction s ticker "SELL" q p market notes d t now).1
            ticker "BUY" q2 p2 market2 notes2 d2 t2 now2).1.positions
          (normTicker ticker) =
        some ⟨normTicker ticker, q2, p2, market2, now2⟩) := by
  constructor
  · intro hlt
    rw [add_transaction_sell_ok_eq hfp hq hlt.le hp hm]
    simp only
    rw [if_neg (by omega : ¬ pos.quantity - q = 0)]
    rw [find_position_map_update s.positions (normTicker ticker)
          (fun pp => { pp with quantity := pos.quantity - q, last_updated := now })
          (fun _ => rfl), hfp]
    have htk : pos.ticker = normTicker ticker := (find_position_mem hfp).2
    simp [htk]
  · intro heq
    have hnone : find_position
        (add_transaction s ticker "SELL" q p market notes d t now).1.positions
        (normTicker ticker) = none := by
      rw [add_transaction_sell_ok_eq hfp hq heq.le hp hm]
      simp only
      rw [if_pos (by omega : pos.quantity - q = 0)]
      exact find_position_filter_ne s.positions (normTicker ticker)
    refine ⟨hnone, ?_⟩
    intro q2 p2 market2 notes2 d2 t2 now2 hq2 hp2 hm2
    rw [add_transaction_buy_eq hq2 hp2 hm2]
    simp only
    rw [handle_buy_fresh q2 p2 market2 now2 hnone]
    exact find_position_append_single hnone rfl

/-- Witness for C5: selling 40 of 100 shares keeps the 85000 average and the
market and leaves 60 shares; selling all 100 deletes the row, and a fresh BUY
of 30 at 91000 starts a new position whose average is 91000. -/
theorem sell_position_lifecycle_witness :
    find_position (add_transaction ⟨[], [⟨"VNM", 100, 85000, "VN", 0⟩], [], [], 1, 1⟩
        "VNM" "SELL" 40 90000 "VN" "" 2 3 4).1.positions "VNM" =
      some ⟨"VNM", 60, 85000, "VN", 4⟩ ∧
    find_position (add_transaction ⟨[], [⟨"VNM", 100, 85000, "VN", 0⟩], [], [], 1, 1⟩
        "VNM" "SELL" 100 90000 "VN" "" 2 3 4).1.positions "VNM" = none ∧
    find_position (add_transaction (add_transaction
          ⟨[], [⟨"VNM", 100, 85000, "VN", 0⟩], [], [], 1, 1⟩
          "VNM" "SELL" 100 90000 "VN" "" 2 3 4).1
        "VNM" "BUY" 30 91000 "VN" "" 5 6 7).1.positions "VNM" =
      some ⟨"VNM", 30, 91000, "VN", 7⟩ := by
  have h1 := (@sell_position_lifecycle ⟨[], [⟨"VNM", 100, 85000, "VN", 0⟩], [], [], 1, 1⟩
    "VNM" 40 90000 "VN" "" 2 3 4 ⟨"VNM", 100, 85000, "VN", 0⟩
    (by decide) (by decide) (by norm_num) (Or.inl rfl)).1 (by decide)
  have h2 := (@sell_position_lifecycle ⟨[], [⟨"VNM", 100, 85000, "VN", 0⟩], [], [], 1, 1⟩
    "VNM" 100 90000 "VN" "" 2 3 4 ⟨"VNM", 100, 85000, "VN", 0⟩
    (by decide) (by decide) (by norm_num) (Or.inl rfl)).2 (by decide)
  rw [show normTicker "VNM" = "VNM" from by decide] at h1 h2
  refine ⟨?_, ?_, ?_⟩
  · rw [h1]
    decide
  · exact h2.1
  · exact h2.2 30 91000 "VN" "" 5 6 7 (by decide) (by norm_num) (Or.inl rfl)

/-- C6: a cache entry younger than 5 minutes is served exactly as cached, for
every possible adapter (so the adapter is never consulted); an absent entry or
one at least 5 minutes old behaves as a miss: the call falls through to the
market's adapter, returns none if the adapter is unavailable, and on a fetch
returns the fetched price after writing it through to the cache. -/
theorem price_cache_five_minute_window {s : DBState} {ticker market : String} {now : Nat} :
    (∀ (e : PriceCacheEntry) (fetchVN fetchUS : String → Option ℚ),
      find_cache s.price_cache (normTicker ticker) = some e →
      now - e.last_updated < freshness_window →
      get_current_price s fetchVN fetchUS ticker market now = (some e.price, s)) ∧
    (∀ fetchVN fetchUS : String → Option ℚ,
      find_cache s.price_cache (normTicker ticker) = none →
      (if market = "VN" then fetchVN (normTicker ticker)
       else fetchUS (normTicker ticker)) = none →
      get_current_price s fetchVN fetchUS ticker market now = (none, s)) ∧
    (∀ (e : PriceCacheEntry) (fetchVN fetchUS : String → Option ℚ),
      find_cache s.price_cache (normTicker ticker) = some e →
      freshness_window ≤ now - e.last_updated →
      ((if market = "VN" then fetchVN (normTicker ticker)
        else fetchUS (normTicker ticker)) = none →
        get_current_price s fetchVN fetchUS ticker market now = (none, s)) ∧
      (∀ pr : ℚ,
        (if market = "VN" then fetchVN (normTicker ticker)
         else fetchUS (normTicker ticker)) = some pr →
        get_current_price s fetchVN fetchUS ticker market now =
          (some pr,
           { s with price_cache := upsert_cache s.price_cache (normTicker ticker) pr now }))) := by
  refine ⟨?_, ?_, ?_⟩
  · intro e fetchVN fetchUS hfc hfresh
    unfold get_current_price
    dsimp only
    rw [hfc]
    dsimp only
    rw [if_pos hfresh]
  · intro fetchVN fetchUS hfc hfetch
    unfold get_current_price
    dsimp only
    rw [hfc]
    dsimp only
    rw [hfetch]
  · intro e fetchVN fetchUS hfc hstale
    constructor
    · intro hfetch
      unfold get_current_price
      dsimp only
      rw [hfc]
      dsimp only
      rw [if_neg (by omega : ¬ now - e.last_updated < freshness_window), hfetch]
    · intro pr hfetch
      unfold get_current_price
      dsimp only
      rw [hfc]
      dsimp only
      rw [if_neg (by omega : ¬ now - e.last_updated < freshness_window), hfetch]

/-- Witness for C6: with a cache entry (VNM, 87500, written at t=100), a read
at t=300 (age 200 s < 300 s) returns 87500 even against an adapter that would
return 99; a read at t=500 (age 400 s) misses: it returns none when the
adapter fails and 91000 (writing the cache) when the adapter serves 91000. -/
theorem price_cache_five_minute_window_witness :
    get_current_price ⟨[], [], [], [⟨"VNM", 87500, 100⟩], 1, 1⟩
        (fun _ => some 99) (fun _ => none) "VNM" "VN" 300 =
      (some 87500, ⟨[], [], [], [⟨"VNM", 87500, 100⟩], 1, 1⟩) ∧
    get_current_price ⟨[], [], [], [⟨"VNM", 87500, 100⟩], 1, 1⟩
        (fun _ => none) (fun _ => none) "VNM" "VN" 500 =
      (none, ⟨[], [], [], [⟨"VNM", 87500, 100⟩], 1, 1⟩) ∧
    get_current_price ⟨[], [], [], [⟨"VNM", 87500, 100⟩], 1, 1⟩
        (fun _ => some 91000) (fun _ => none) "VNM" "VN" 500 =
      (some 91000, ⟨[], [], [], [⟨"VNM", 91000, 500⟩], 1, 1⟩) := by
  have h1 := (@price_cache_five_minute_window ⟨[], [], [], [⟨"VNM", 87500, 100⟩], 1, 1⟩
    "VNM" "VN" 300).1 ⟨"VNM", 87500, 100⟩ (fun _ => some 99) (fun _ => none)
    (by decide) (by decide)
  have h2 := (@price_cache_five_minute_window ⟨[], [], [], [⟨"VNM", 87500, 100⟩], 1, 1⟩
    "VNM" "VN" 500).2.2 ⟨"VNM", 87500, 100⟩ (fun _ => none) (fun _ => none)
    (by decide) (by decide)
  have h3 := (@price_cache_five_minute_window ⟨[], [], [], [⟨"VNM", 87500, 100⟩], 1, 1⟩
    "VNM" "VN" 500).2.2 ⟨"VNM", 87500, 100⟩ (fun _ => some 91000) (fun _ => none)
    (by decide) (by decide)
  refine ⟨h1, h2.1 (by decide), ?_⟩
  have h4 := h3.2 91000 (by decide)
  rw [h4]
  decide

/-- The three pnl sign buckets partition the aggregated rows. -/
theorem countP_pnl_partition (rows : List RealizedPnL) :
    rows.countP (fun r => decide (0 < r.pnl)) + rows.countP (fun r => decide (r.pnl < 0)) +
      rows.countP (fun r => decide (r.pnl = 0)) = rows.length := by
  induction rows with
  | nil => rfl
  | cons r rest ih =>
    simp only [List.countP_cons, List.length_cons]
    rcases lt_trichotomy r.pnl 0 with h | h | h
    · simp only [decide_eq_true_eq]
      rw [if_neg (by exact fun hc => absurd (lt_trans hc h) (lt_irrefl _)),
          if_pos h, if_neg (ne_of_lt h)]
      omega
    · simp only [decide_eq_true_eq]
      rw [if_neg (by rw [h]; exact lt_irrefl 0), if_neg (by rw [h]; exact lt_irrefl 0),
          if_pos h]
      omega
    · simp only [decide_eq_true_eq]
      rw [if_pos h, if_neg (by exact fun hc => absurd (lt_trans h hc) (lt_irrefl _)),
          if_neg (ne_of_gt h)]
      omega

theorem get_realized_pnl_summary_eq_nil {s : DBState} {ticker : Option String}
    (h : realized_rows s ticker = []) :
    get_realized_pnl_summary s ticker = ⟨0, 0, 0, 0, 0⟩ := by
  unfold get_realized_pnl_summary
  rw [h]

theorem get_realized_pnl_summary_eq_cons {s : DBState} {ticker : Option String}
    {r : RealizedPnL} {rest : List RealizedPnL}
    (h : realized_rows s ticker = r :: rest) :
    get_realized_pnl_summary s ticker =
      ⟨((r :: rest).map RealizedPnL.pnl).sum, (r :: rest).length,
       ((r :: rest).filter (fun x => decide (0 < x.pnl))).length,
       ((r :: rest).filter (fun x => decide (x.pnl < 0))).length,
       if 0 < (r :: rest).length then
         ((((r :: rest).filter (fun x => decide (0 < x.pnl))).length : ℚ) /
           ((r :: rest).length : ℚ)) * 100
       else 0⟩ := by
  unfold get_realized_pnl_summary
  rw [h]

/-- C7: the summary counts winning trades as rows with pnl > 0 and losing
trades as rows with pnl < 0 (zero-pnl rows count toward the total but toward
neither bucket), totals the pnl column, and reports
winRate = winningTrades / totalTrades * 100, with winRate = 0 on zero trades
(no divide-by-zero fault: the empty aggregate takes the `None` branch). -/
theorem realized_pnl_summary_correct (s : DBState) (ticker : Option String) :
    (get_realized_pnl_summary s ticker).winning_trades =
        (realized_rows s ticker).countP (fun r => decide (0 < r.pnl)) ∧
    (get_realized_pnl_summary s ticker).losing_trades =
        (realized_rows s ticker).countP (fun r => decide (r.pnl < 0)) ∧
    (get_realized_pnl_summary s ticker).total_trades = (realized_rows s ticker).length ∧
    (get_realized_pnl_summary s ticker).total_pnl =
        ((realized_rows s ticker).map RealizedPnL.pnl).sum ∧
    (get_realized_pnl_summary s ticker).winning_trades +
        (get_realized_pnl_summary s ticker).losing_trades +
        (realized_rows s ticker).countP (fun r => decide (r.pnl = 0)) =
      (get_realized_pnl_summary s ticker).total_trades ∧
    (get_realized_pnl_summary s ticker).win_rate =
        ((get_realized_pnl_summary s ticker).winning_trades : ℚ) /
          ((get_realized_pnl_summary s ticker).total_trades : ℚ) * 100 ∧
    ((get_realized_pnl_summary s ticker).total_trades = 0 →
      (get_realized_pnl_summary s ticker).win_rate = 0) := by
  cases hrows : realized_rows s ticker with
  | nil =>
    rw [get_realized_pnl_summary_eq_nil hrows]
    refine ⟨rfl, rfl, rfl, rfl, rfl, by simp, fun _ => rfl⟩
  | cons r rest =>
    rw [get_realized_pnl_summary_eq_cons hrows]
    refine ⟨?_, ?_, ?_, ?_, ?_, ?_, ?_⟩
    · exact (List.countP_eq_length_filter _ _).symm
    · exact (List.countP_eq_length_filter _ _).symm
    · rfl
    · rfl
    · have h := countP_pnl_partition (r :: rest)
      simp only [List.countP_eq_length_filter] at h ⊢
      exact h
    · simp only
      rw [if_pos (by simp : 0 < (r :: rest).length)]
    · intro h
      simp at h

/-- Witness for C7: three winning and two losing realized trades out of five
give winRate = 60; the empty aggregate returns winRate = 0 without faulting. -/
theorem realized_pnl_summary_correct_witness :
    (get_realized_pnl_summary ⟨[], [],
        [⟨1, "VNM", 1, 1, 2, 1, 100, 2, 3⟩, ⟨2, "VNM", 1, 1, 2, 2, 100, 2, 3⟩,
         ⟨3, "VNM", 1, 1, 2, 3, 100, 2, 3⟩, ⟨4, "VNM", 1, 2, 1, -1, -50, 2, 3⟩,
         ⟨5, "VNM", 1, 2, 1, -2, -50, 2, 3⟩], [], 1, 6⟩ none).win_rate = 60 ∧
    (get_realized_pnl_summary DBState.empty none).win_rate = 0 := by
  have h := realized_pnl_summary_correct ⟨[], [],
    [⟨1, "VNM", 1, 1, 2, 1, 100, 2, 3⟩, ⟨2, "VNM", 1, 1, 2, 2, 100, 2, 3⟩,
     ⟨3, "VNM", 1, 1, 2, 3, 100, 2, 3⟩, ⟨4, "VNM", 1, 2, 1, -1, -50, 2, 3⟩,
     ⟨5, "VNM", 1, 2, 1, -2, -50, 2, 3⟩], [], 1, 6⟩ none
  have h0 := realized_pnl_summary_correct DBState.empty none
  constructor
  · rw [h.2.2.2.2.2.1, show (get_realized_pnl_summary ⟨[], [],
        [⟨1, "VNM", 1, 1, 2, 1, 100, 2, 3⟩, ⟨2, "VNM", 1, 1, 2, 2, 100, 2, 3⟩,
         ⟨3, "VNM", 1, 1, 2, 3, 100, 2, 3⟩, ⟨4, "VNM", 1, 2, 1, -1, -50, 2, 3⟩,
         ⟨5, "VNM", 1, 2, 1, -2, -50, 2, 3⟩], [], 1, 6⟩ none).winning_trades = 3
        from by rw [h.1]; decide,
      show (get_realized_pnl_summary ⟨[], [],
        [⟨1, "VNM", 1, 1, 2, 1, 100, 2, 3⟩, ⟨2, "VNM", 1, 1, 2, 2, 100, 2, 3⟩,
         ⟨3, "VNM", 1, 1, 2, 3, 100, 2, 3⟩, ⟨4, "VNM", 1, 2, 1, -1, -50, 2, 3⟩,
         ⟨5, "VNM", 1, 2, 1, -2, -50, 2, 3⟩], [], 1, 6⟩ none).total_trades = 5
        from by rw [h.2.2.1]; decide]
    norm_num
  · exact h0.2.2.2.2.2.2 (by rw [h0.2.2.1]; decide)

/-! ### Order lemmas for the sorted queries (C8, C9) -/

theorem lexLe_total (as bs : List Char) : lexLe as bs = true ∨ lexLe bs as = true := by
  induction as generalizing bs with
  | nil => exact Or.inl rfl
  | cons a as1 ih =>
    cases bs with
    | nil => exact Or.inr rfl
    | cons b bs1 =>
      rcases lt_trichotomy a b with h | h | h
      · left
        simp [lexLe, h]
      · subst h
        rcases ih bs1 with h2 | h2
        · left
          simp [lexLe, h2]
        · right
          simp [lexLe, h2]
      · right
        simp [lexLe, h]

theorem lexLe_trans {as bs cs : List Char} (h1 : lexLe as bs = true)
    (h2 : lexLe bs cs = true) : lexLe as cs = true := by
  induction as generalizing bs cs with
  | nil => rfl
  | cons a as1 ih =>
    cases bs with
    | nil => simp [lexLe] at h1
    | cons b bs1 =>
      cases cs with
      | nil => simp [lexLe] at h2
      | cons c cs1 =>
        rcases lt_trichotomy a b with hab | hab | hab
        · rcases lt_trichotomy b c with hbc | hbc | hbc
          · simp [lexLe, lt_trans hab hbc]
          · subst hbc
            simp [lexLe, hab]
          · rw [lexLe, if_neg (asymm hbc), if_neg (ne_of_gt hbc)] at h2
            exact absurd h2 (by simp)
        · subst hab
          rw [lexLe, if_neg (lt_irrefl a), if_pos rfl] at h1
          rcases lt_trichotomy a c with hac | hac | hac
          · simp [lexLe, hac]
          · subst hac
            rw [lexLe, if_neg (lt_irrefl a), if_pos rfl] at h2 ⊢
            exact ih h1 h2
          · rw [lexLe, if_neg (asymm hac), if_neg (ne_of_gt hac)] at h2
            exact absurd h2 (by simp)
        · rw [lexLe, if_neg (asymm hab), if_neg (ne_of_gt hab)] at h1
          exact absurd h1 (by simp)

theorem strLe_total (a b : String) : strLe a b = true ∨ strLe b a = true :=
  lexLe_total a.data b.data

theorem strLe_trans {a b c : String} (h1 : strLe a b = true) (h2 : strLe b c = true) :
    strLe a c = true :=
  lexLe_trans h1 h2

theorem tx_newest_first_total (a b : Transaction) :
    tx_newest_first a b ∨ tx_newest_first b a := by
  unfold tx_newest_first
  omega

theorem tx_newest_first_trans {a b c : Transaction} (h1 : tx_newest_first a b)
    (h2 : tx_newest_first b c) : tx_newest_first a c := by
  unfold tx_newest_first at *
  omega

/-- C9 (amended): the history query returns rows ordered newest first by
(date, time) descending, filtered to one ticker when a non-empty ticker is
given, and truncated to at most limit rows when limit is non-negative; a limit
that is not a positive integer is NOT rejected: no InvalidArgument check
exists, a zero limit returns no rows and a negative limit returns every
matching row (SQLite treats a negative LIMIT as unbounded). -/
theorem transaction_history_query (s : DBState) (ticker : Option String) (limit : Int) :
    List.Pairwise tx_newest_first (get_transaction_history s ticker limit) ∧
    (0 ≤ limit → (get_transaction_history s ticker limit).length ≤ limit.toNat) ∧
    (∀ t : String, ticker = some t → ¬ t = "" →
      ∀ tx ∈ get_transaction_history s ticker limit, tx.ticker = upperStr t) ∧
    (limit < 0 →
      get_transaction_history s ticker limit =
        (match ticker with
          | some t =>
              if t = "" then s.transactions
              else s.transactions.filter (fun tx => decide (tx.ticker = upperStr t))
          | none => s.transactions).insertionSort tx_newest_first) := by
  haveI : IsTotal Transaction tx_newest_first := ⟨tx_newest_first_total⟩
  haveI : IsTrans Transaction tx_newest_first := ⟨fun _ _ _ => tx_newest_first_trans⟩
  refine ⟨?_, ?_, ?_, ?_⟩
  · unfold get_transaction_history
    dsimp only
    split
    · exact List.sorted_insertionSort tx_newest_first _
    · exact List.Pairwise.sublist (List.take_sublist _ _)
        (List.sorted_insertionSort tx_newest_first _)
  · intro hle
    unfold get_transaction_history
    dsimp only
    rw [if_neg (by omega : ¬ limit < 0)]
    rw [List.length_take]
    exact min_le_left _ _
  · intro t ht htne tx htx
    subst ht
    unfold get_transaction_history at htx
    dsimp only at htx
    rw [if_neg htne] at htx
    have hsub : tx ∈ (s.transactions.filter
        (fun tx => decide (tx.ticker = upperStr t))).insertionSort tx_newest_first := by
      by_cases hl : limit < 0
      · rw [if_pos hl] at htx
        exact htx
      · rw [if_neg hl] at htx
        exact (List.take_sublist _ _).subset htx
    have hmem := (List.perm_insertionSort tx_newest_first _).mem_iff.mp hsub
    have := (List.mem_filter.mp hmem).2
    simpa using this
  · intro hl
    unfold get_transaction_history
    dsimp only
    rw [if_pos hl]

/-- Witness for C9: with two stored transactions, limit 1 returns at most one
row, and a lowercase ticker filter returns only rows of the uppercased ticker. -/
theorem transaction_history_query_witness :
    ((get_transaction_history ⟨[⟨1, "VNM", "BUY", 1, 10, 1, 1, "VN", ""⟩,
        ⟨2, "AAA", "BUY", 1, 11, 2, 2, "VN", ""⟩], [], [], [], 3, 1⟩ none 1).length ≤
      (1 : Int).toNat) ∧
    (∀ tx ∈ get_transaction_history ⟨[⟨1, "VNM", "BUY", 1, 10, 1, 1, "VN", ""⟩,
        ⟨2, "AAA", "BUY", 1, 11, 2, 2, "VN", ""⟩], [], [], [], 3, 1⟩ (some "aaa") 20,
      tx.ticker = upperStr "aaa") := by
  constructor
  · exact (transaction_history_query ⟨[⟨1, "VNM", "BUY", 1, 10, 1, 1, "VN", ""⟩,
      ⟨2, "AAA", "BUY", 1, 11, 2, 2, "VN", ""⟩], [], [], [], 3, 1⟩ none 1).2.1 (by decide)
  · exact (transaction_history_query ⟨[⟨1, "VNM", "BUY", 1, 10, 1, 1, "VN", ""⟩,
      ⟨2, "AAA", "BUY", 1, 11, 2, 2, "VN", ""⟩], [], [], [], 3, 1⟩ (some "aaa") 20).2.2.1
      "aaa" rfl (by decide)

/-- C9 counterexample: with two stored transactions, the non-positive limit -1
is not rejected with InvalidArgument before the query: the call succeeds and
returns both rows, newest first (SQLite's negative LIMIT means unbounded). -/
theorem transaction_history_negative_limit_counterexample :
    get_transaction_history ⟨[⟨1, "VNM", "BUY", 1, 10, 1, 1, "VN", ""⟩,
        ⟨2, "VNM", "BUY", 1, 11, 2, 2, "VN", ""⟩], [], [], [], 3, 1⟩ none (-1) =
      [⟨2, "VNM", "BUY", 1, 11, 2, 2, "VN", ""⟩,
       ⟨1, "VNM", "BUY", 1, 10, 1, 1, "VN", ""⟩] := by
  decide

/-! ### The portfolio report loop (C8) -/

theorem view_portfolio_loop_cons_none {fetchVN fetchUS : String → Option ℚ} {now : Nat}
    {pos : Position} {rest : List Position} {s : DBState} {rows : List ReportRow} {ti tv : ℚ}
    (hpr : (get_current_price s fetchVN fetchUS pos.ticker pos.market now).1 = none) :
    view_portfolio_loop fetchVN fetchUS now (pos :: rest) s rows ti tv =
      view_portfolio_loop fetchVN fetchUS now rest
        (get_current_price s fetchVN fetchUS pos.ticker pos.market now).2
        (rows ++ [⟨pos.ticker, pos.quantity, pos.avg_buy_price, pos.market, none⟩]) ti tv := by
  simp only [view_portfolio_loop]
  rw [hpr]

theorem view_portfolio_loop_cons_zero {fetchVN fetchUS : String → Option ℚ} {now : Nat}
    {pos : Position} {rest : List Position} {s : DBState} {rows : List ReportRow} {ti tv : ℚ}
    (hpr : (get_current_price s fetchVN fetchUS pos.ticker pos.market now).1 = some 0) :
    view_portfolio_loop fetchVN fetchUS now (pos :: rest) s rows ti tv =
      view_portfolio_loop fetchVN fetchUS now rest
        (get_current_price s fetchVN fetchUS pos.ticker pos.market now).2
        (rows ++ [⟨pos.ticker, pos.quantity, pos.avg_buy_price, pos.market, none⟩]) ti tv := by
  simp only [view_portfolio_loop]
  rw [hpr]
  simp

theorem view_portfolio_loop_cons_some {fetchVN fetchUS : String → Option ℚ} {now : Nat}
    {pos : Position} {rest : List Position} {s : DBState} {rows : List ReportRow} {ti tv : ℚ}
    {p : ℚ}
    (hpr : (get_current_price s fetchVN fetchUS pos.ticker pos.market now).1 = some p)
    (hp : p ≠ 0) :
    view_portfolio_loop fetchVN fetchUS now (pos :: rest) s rows ti tv =
      view_portfolio_loop fetchVN fetchUS now rest
        (get_current_price s fetchVN fetchUS pos.ticker pos.market now).2
        (rows ++ [⟨pos.ticker, pos.quantity, pos.avg_buy_price, pos.market,
          some (p, pos.avg_buy_price * (pos.quantity : ℚ), p * (pos.quantity : ℚ),
            p * (pos.quantity : ℚ) - pos.avg_buy_price * (pos.quantity : ℚ))⟩])
        (ti + pos.avg_buy_price * (pos.quantity : ℚ)) (tv + p * (pos.quantity : ℚ)) := by
  simp only [view_portfolio_loop]
  rw [hpr]
  simp only
  rw [if_pos hp]

theorem view_portfolio_loop_rows_eq (fetchVN fetchUS : String → Option ℚ) (now : Nat)
    (pss : List Position) :
    ∀ (s : DBState) (rows : List ReportRow) (ti tv : ℚ),
      (view_portfolio_loop fetchVN fetchUS now pss s rows ti tv).1.rows =
        rows ++ build_rows pss (resolve_prices fetchVN fetchUS now pss s) := by
  induction pss with
  | nil =>
    intro s rows ti tv
    simp [view_portfolio_loop, build_rows, resolve_prices]
  | cons pos rest ih =>
    intro s rows ti tv
    cases hpr : (get_current_price s fetchVN fetchUS pos.ticker pos.market now).1 with
    | none =>
      rw [view_portfolio_loop_cons_none hpr, ih]
      simp only [resolve_prices, build_rows]
      rw [hpr]
      simp [build_rows]
    | some p =>
      by_cases hp : p = 0
      · subst hp
        rw [view_portfolio_loop_cons_zero hpr, ih]
        simp only [resolve_prices, build_rows]
        rw [hpr]
        simp [build_rows]
      · rw [view_portfolio_loop_cons_some hpr hp, ih]
        simp only [resolve_prices, build_rows]
        rw [hpr]
        simp [build_rows, hp]

theorem view_portfolio_loop_spec (fetchVN fetchUS : String → Option ℚ) (now : Nat)
    (pss : List Position) :
    ∀ (s : DBState) (rows : List ReportRow) (ti tv : ℚ),
      ((view_portfolio_loop fetchVN fetchUS now pss s rows ti tv).1.rows.map row_proj =
          rows.map row_proj ++ pss.map pos_proj) ∧
      (∀ r ∈ (view_portfolio_loop fetchVN fetchUS now pss s rows ti tv).1.rows,
          r ∈ rows ∨ report_row_ok r) ∧
      ((view_portfolio_loop fetchVN fetchUS now pss s rows ti tv).1.total_invested +
          (rows.map row_invested).sum =
        ti + ((view_portfolio_loop fetchVN fetchUS now pss s rows ti tv).1.rows.map
          row_invested).sum) ∧
      ((view_portfolio_loop fetchVN fetchUS now pss s rows ti tv).1.total_current_value +
          (rows.map row_value).sum =
        tv + ((view_portfolio_loop fetchVN fetchUS now pss s rows ti tv).1.rows.map
          row_value).sum) := by
  induction pss with
  | nil =>
    intro s rows ti tv
    refine ⟨by simp [view_portfolio_loop], ?_, by simp [view_portfolio_loop, add_comm],
      by simp [view_portfolio_loop, add_comm]⟩
    intro r hr
    exact Or.inl (by simpa [view_portfolio_loop] using hr)
  | cons pos rest ih =>
    intro s rows ti tv
    cases hpr : (get_current_price s fetchVN fetchUS pos.ticker pos.market now).1 with
    | none =>
      rw [view_portfolio_loop_cons_none hpr]
      obtain ⟨h1, h2, h3, h4⟩ := ih
        (get_current_price s fetchVN fetchUS pos.ticker pos.market now).2
        (rows ++ [⟨pos.ticker, pos.quantity, pos.avg_buy_price, pos.market, none⟩]) ti tv
      refine ⟨?_, ?_, ?_, ?_⟩
      · rw [h1]
        simp [row_proj, pos_proj]
      · intro r hr
        rcases h2 r hr with hr2 | hr2
        · rcases List.mem_append.mp hr2 with h | h
          · exact Or.inl h
          · simp only [List.mem_singleton] at h
            subst h
            exact Or.inr (by simp [report_row_ok])
        · exact Or.inr hr2
      · rw [List.map_append, List.sum_append] at h3
        simp only [List.map_cons, List.map_nil, List.sum_cons, List.sum_nil] at h3
        rw [show row_invested ⟨pos.ticker, pos.quantity, pos.avg_buy_price, pos.market,
          none⟩ = 0 from rfl] at h3
        linarith
      · rw [List.map_append, List.sum_append] at h4
        simp only [List.map_cons, List.map_nil, List.sum_cons, List.sum_nil] at h4
        rw [show row_value ⟨pos.ticker, pos.quantity, pos.avg_buy_price, pos.market,
          none⟩ = 0 from rfl] at h4
        linarith
    | some p =>
      by_cases hp : p = 0
      · subst hp
        rw [view_portfolio_loop_cons_zero hpr]
        obtain ⟨h1, h2, h3, h4⟩ := ih
          (get_current_price s fetchVN fetchUS pos.ticker pos.market now).2
          (rows ++ [⟨pos.ticker, pos.quantity, pos.avg_buy_price, pos.market, none⟩]) ti tv
        refine ⟨?_, ?_, ?_, ?_⟩
        · rw [h1]
          simp [row_proj, pos_proj]
        · intro r hr
          rcases h2 r hr with hr2 | hr2
          · rcases List.mem_append.mp hr2 with h | h
            · exact Or.inl h
            · simp only [List.mem_singleton] at h
              subst h
              exact Or.inr (by simp [report_row_ok])
          · exact Or.inr hr2
        · rw [List.map_append, List.sum_append] at h3
          simp only [List.map_cons, List.map_nil, List.sum_cons, List.sum_nil] at h3
          rw [show row_invested ⟨pos.ticker, pos.quantity, pos.avg_buy_price, pos.market,
            none⟩ = 0 from rfl] at h3
          linarith
        · rw [List.map_append, List.sum_append] at h4
          simp only [List.map_cons, List.map_nil, List.sum_cons, List.sum_nil] at h4
          rw [show row_value ⟨pos.ticker, pos.quantity, pos.avg_buy_price, pos.market,
            none⟩ = 0 from rfl] at h4
          linarith
      · rw [view_portfolio_loop_cons_some hpr hp]
        obtain ⟨h1, h2, h3, h4⟩ := ih
          (get_current_price s fetchVN fetchUS pos.ticker pos.market now).2
          (rows ++ [⟨pos.ticker, pos.quantity, pos.avg_buy_price, pos.market,
            some (p, pos.avg_buy_price * (pos.quantity : ℚ), p * (pos.quantity : ℚ),
              p * (pos.quantity : ℚ) - pos.avg_buy_price * (pos.quantity : ℚ))⟩])
          (ti + pos.avg_buy_price * (pos.quantity : ℚ)) (tv + p * (pos.quantity : ℚ))
        refine ⟨?_, ?_, ?_, ?_⟩
        · rw [h1]
          simp [row_proj, pos_proj]
        · intro r hr
          rcases h2 r hr with hr2 | hr2
          · rcases List.mem_append.mp hr2 with h | h
            · exact Or.inl h
            · simp only [List.mem_singleton] at h
              subst h
              exact Or.inr ⟨hp, rfl, rfl, rfl⟩
          · exact Or.inr hr2
        · rw [List.map_append, List.sum_append] at h3
          simp only [List.map_cons, List.map_nil, List.sum_cons, List.sum_nil] at h3
          rw [show row_invested ⟨pos.ticker, pos.quantity, pos.avg_buy_price, pos.market,
            some (p, pos.avg_buy_price * (pos.quantity : ℚ), p * (pos.quantity : ℚ),
              p * (pos.quantity : ℚ) - pos.avg_buy_price * (pos.quantity : ℚ))⟩ =
            pos.avg_buy_price * (pos.quantity : ℚ) from rfl] at h3
          linarith
        · rw [List.map_append, List.sum_append] at h4
          simp only [List.map_cons, List.map_nil, List.sum_cons, List.sum_nil] at h4
          rw [show row_value ⟨pos.ticker, pos.quantity, pos.avg_buy_price, pos.market,
            some (p, pos.avg_buy_price * (pos.quantity : ℚ), p * (pos.quantity : ℚ),
              p * (pos.quantity : ℚ) - pos.avg_buy_price * (pos.quantity : ℚ))⟩ =
            p * (pos.quantity : ℚ) from rfl] at h4
          linarith

/-- C8 (amended): the report's rows are exactly `build_rows` of the positions
in ticker order zipped with their `get_current_price` outcomes (cache state
threaded call to call): a ticker whose price resolves to a truthy (nonzero)
value yields a priced row carrying invested = avgPrice*quantity,
currentValue = price*quantity and unrealizedPnL = currentValue - invested,
while a ticker whose fetch fails — or resolves to the Python-falsy price 0 —
yields a pending row; the two totals are exactly the sums of the rows'
contributions, pending rows contributing nothing; the function is total, so
no single unavailable price aborts the report. -/
theorem portfolio_report_pending_policy (s : DBState) (fetchVN fetchUS : String → Option ℚ)
    (now : Nat) :
    ((view_portfolio s fetchVN fetchUS now).1.rows =
        build_rows (get_all_positions s)
          (resolve_prices fetchVN fetchUS now (get_all_positions s) s)) ∧
    ((view_portfolio s fetchVN fetchUS now).1.total_invested =
        ((view_portfolio s fetchVN fetchUS now).1.rows.map row_invested).sum) ∧
    ((view_portfolio s fetchVN fetchUS now).1.total_current_value =
        ((view_portfolio s fetchVN fetchUS now).1.rows.map row_value).sum) ∧
    List.Pairwise pos_le (get_all_positions s) := by
  obtain ⟨h1, h2, h3, h4⟩ :=
    view_portfolio_loop_spec fetchVN fetchUS now (get_all_positions s) s [] 0 0
  refine ⟨?_, by simpa [view_portfolio] using h3, by simpa [view_portfolio] using h4, ?_⟩
  · have hrows := view_portfolio_loop_rows_eq fetchVN fetchUS now (get_all_positions s) s [] 0 0
    simpa [view_portfolio] using hrows
  · haveI : IsTotal Position pos_le := ⟨fun a b => strLe_total a.ticker b.ticker⟩
    haveI : IsTrans Position pos_le := ⟨fun _ _ _ => strLe_trans⟩
    exact List.sorted_insertionSort pos_le _

/-- Witness for C8: two positions entered out of order (BBB then AAA); the
adapter resolves AAA to 12 and fails on BBB.  The report lists AAA first as a
priced row (invested 20, value 24, pnl 4), lists BBB as a pending row, and
the totals count only AAA: invested 20, current value 24. -/
theorem portfolio_report_pending_policy_witness :
    (view_portfolio ⟨[], [⟨"BBB", 1, 7, "VN", 0⟩, ⟨"AAA", 2, 10, "VN", 0⟩], [], [], 1, 1⟩
        (fun t => if t = "AAA" then some 12 else none) (fun _ => none) 5).1.rows =
      [⟨"AAA", 2, 10, "VN", some (12, 20, 24, 4)⟩, ⟨"BBB", 1, 7, "VN", none⟩] ∧
    (view_portfolio ⟨[], [⟨"BBB", 1, 7, "VN", 0⟩, ⟨"AAA", 2, 10, "VN", 0⟩], [], [], 1, 1⟩
        (fun t => if t = "AAA" then some 12 else none) (fun _ => none) 5).1.total_invested =
      20 ∧
    (view_portfolio ⟨[], [⟨"BBB", 1, 7, "VN", 0⟩, ⟨"AAA", 2, 10, "VN", 0⟩], [], [], 1, 1⟩
        (fun t => if t = "AAA" then some 12 else none) (fun _ => none) 5).1.total_current_value =
      24 := by
  have h := portfolio_report_pending_policy
    ⟨[], [⟨"BBB", 1, 7, "VN", 0⟩, ⟨"AAA", 2, 10, "VN", 0⟩], [], [], 1, 1⟩
    (fun t => if t = "AAA" then some 12 else none) (fun _ => none) 5
  have hsorted : get_all_positions
      ⟨[], [⟨"BBB", 1, 7, "VN", 0⟩, ⟨"AAA", 2, 10, "VN", 0⟩], [], [], 1, 1⟩ =
      [⟨"AAA", 2, 10, "VN", 0⟩, ⟨"BBB", 1, 7, "VN", 0⟩] := by decide
  have hres : resolve_prices (fun t => if t = "AAA" then some 12 else none) (fun _ => none) 5
      [⟨"AAA", 2, 10, "VN", 0⟩, ⟨"BBB", 1, 7, "VN", 0⟩]
      ⟨[], [⟨"BBB", 1, 7, "VN", 0⟩, ⟨"AAA", 2, 10, "VN", 0⟩], [], [], 1, 1⟩ =
      [some 12, none] := by decide
  have hrows : (view_portfolio
      ⟨[], [⟨"BBB", 1, 7, "VN", 0⟩, ⟨"AAA", 2, 10, "VN", 0⟩], [], [], 1, 1⟩
      (fun t => if t = "AAA" then some 12 else none) (fun _ => none) 5).1.rows =
      [⟨"AAA", 2, 10, "VN", some (12, 20, 24, 4)⟩, ⟨"BBB", 1, 7, "VN", none⟩] := by
    rw [h.1, hsorted, hres]
    norm_num [build_rows]
  refine ⟨hrows, ?_, ?_⟩
  · rw [h.2.1, hrows]
    norm_num [row_invested]
  · rw [h.2.2.1, hrows]
    norm_num [row_value]

/-- C8 counterexample: with one position (AAA, 1 share at avg 10) and an
adapter that resolves AAA to price 0, the price resolves (get_current_price
returns some 0) yet view_portfolio renders the row as pending and the totals
stay 0 instead of gaining invested = 10: a ticker whose price resolves does
not always contribute, so the claim as stated fails at this input. -/
theorem portfolio_report_zero_price_counterexample :
    (get_current_price ⟨[], [⟨"AAA", 1, 10, "VN", 0⟩], [], [], 1, 1⟩
        (fun _ => some 0) (fun _ => none) "AAA" "VN" 5).1 = some 0 ∧
    (view_portfolio ⟨[], [⟨"AAA", 1, 10, "VN", 0⟩], [], [], 1, 1⟩
        (fun _ => some 0) (fun _ => none) 5).1.rows =
      [⟨"AAA", 1, 10, "VN", none⟩] ∧
    (view_portfolio ⟨[], [⟨"AAA", 1, 10, "VN", 0⟩], [], [], 1, 1⟩
        (fun _ => some 0) (fun _ => none) 5).1.total_invested = 0 := by
  refine ⟨by decide, by decide, by decide⟩

end Portfolio
